import Mathlib

/-!
Verification of the redaction post-processor
(src/post_processor/v3/post_processor_9.py).

The Python module selects prediction rows to redact (by label membership
and/or regex patterns over the stripped text), pre-loads one bitmap per
referenced page into a cache keyed by a derived filename, blacks out the
matched rectangles, and emits one bundle per cached page with the
concatenated redacted text.

Embedding conventions:
* pandas DataFrames are lists of Row records; selections are List.filter,
  pd.concat is list append, drop_duplicates is a keep-first value dedup.
* the external regex library is a parameter (RegexEngine): compile either
  fails (malformed pattern) or yields a total matcher on strings.
* the filesystem is a parameter fs : path → Option content; cv2.imread
  returning None is fs returning none.  Every imread call is logged
  (by page id) so read-count properties can be stated.
* bitmaps are modelled by their source content plus the ordered list of
  rectangles blacked onto them; png/base64 encoding is a parameter.
* Python exceptions (re.error inside str.contains, KeyError on the image
  dict) are Except errors; in-place mutation of the caller's DataFrame is
  modelled by returning the new table alongside the result.
-/

namespace PostProc

/-- Characters removed by Python str.strip with no argument (ASCII whitespace). -/
def isPySpace (c : Char) : Bool :=
  c = ' ' || c = '\t' || c = '\n' || c = '\r' || c = '\x0b' || c = '\x0c'

/-- Python str.strip on the character list: drop whitespace from both ends. -/
def pyStripList (l : List Char) : List Char :=
  ((l.dropWhile isPySpace).reverse.dropWhile isPySpace).reverse

/-- Python str.strip, as used by pandas Series.str.strip. -/
def pyStrip (s : String) : String := String.mk (pyStripList s.toList)

/-- One merged prediction row (one DataFrame record): columns label, text,
bounding box, page_id, doc_id and the per-row id assigned in get_entities. -/
structure Row where
  label : String
  text : String
  xmin : Int
  ymin : Int
  xmax : Int
  ymax : Int
  page_id : String
  doc_id : String
  id : String
deriving DecidableEq, Repr

/-- A cached page bitmap: the loaded file content plus the rectangles that
redact_region has blacked out on it, in application order. -/
structure Image where
  src : String
  rects : List (Int × Int × Int × Int)
deriving DecidableEq, Repr

/-- PostProcessor.redact_region: cv2.rectangle with thickness -1 fills the
rectangle with black, mutating the bitmap; modelled by recording the rectangle. -/
def redact_region (image : Image) (xmin ymin xmax ymax : Int) : Image :=
  { image with rects := image.rects ++ [(xmin, ymin, xmax, ymax)] }

/-- The external regex library (Python re, via pandas str.contains):
compiling a pattern either fails (malformed pattern, re.error) or yields a
total search predicate on strings. -/
structure RegexEngine where
  compile : String → Option (String → Bool)

/-- pandas drop_duplicates: keep the first occurrence of each row value. -/
def dropDupAux (seen : List Row) : List Row → List Row
  | [] => []
  | r :: rs => if r ∈ seen then dropDupAux seen rs else r :: dropDupAux (r :: seen) rs

/-- pandas DataFrame.drop_duplicates with default arguments. -/
def dropDuplicates (l : List Row) : List Row := dropDupAux [] l

/-- mutate the text column: doc_predictions.text = doc_predictions.text.str.strip(). -/
def stripRow (r : Row) : Row := { r with text := pyStrip r.text }

/-- The whole table after the strip assignment. -/
def stripTable (t : List Row) : List Row := t.map stripRow

/-- label_filtered: rows whose label is in labels_to_redact, or an empty
frame when labels_to_redact is falsy (None or empty). -/
def labelFiltered (labels : List String) (t : List Row) : List Row :=
  if labels.isEmpty then [] else t.filter (fun r => labels.contains r.label)

/-- The list comprehension inside pattern_filtered: one selection per
pattern, in order; a malformed pattern raises re.error inside str.contains. -/
def patternSelections (eng : RegexEngine) (t : List Row) : List String → Except Unit (List (List Row))
  | [] => Except.ok []
  | p :: ps =>
    match eng.compile p with
    | none => Except.error ()
    | some m =>
      match patternSelections eng t ps with
      | Except.error e => Except.error e
      | Except.ok rest => Except.ok (t.filter (fun r => m r.text) :: rest)

/-- pattern_filtered: pd.concat of the per-pattern selections followed by
drop_duplicates, or an empty frame when the pattern list is falsy. -/
def patternFiltered (eng : RegexEngine) (pats : List String) (t : List Row) :
    Except Unit (List Row) :=
  if pats.isEmpty then Except.ok []
  else
    match patternSelections eng t pats with
    | Except.error e => Except.error e
    | Except.ok sels => Except.ok (dropDuplicates sels.flatten)

/-- PostProcessor.get_filtered_predictions.  The first component is the
state of the caller's table after the in-place strip of the text column;
the second is the returned filtered frame, or the propagated re.error. -/
def get_filtered_predictions (eng : RegexEngine) (labels pats : List String) (t : List Row) :
    List Row × Except Unit (List Row) :=
  let t2 := stripTable t
  let lf := labelFiltered labels t2
  match patternFiltered eng pats t2 with
  | Except.error e => (t2, Except.error e)
  | Except.ok pf => (t2, Except.ok (dropDupAux [] (lf ++ pf)))

/-- The module-level default criteria (lines 29-30 of the source): plain
assignments, no validation or compilation of the patterns happens here. -/
def labels_to_redact : List String := []

/-- The module-level default pattern list (line 30 of the source). -/
def text_patterns_to_redact : List String := ["^\\d{3} \\d{3} \\d{3}$", "\\b\\d{9}\\b"]

/-- Module setup for the pattern list: the source merely binds the list of
strings; no regex is compiled at import time. -/
def setupPatterns (ps : List String) : List String := ps

/-- index of the last occurrence of a character, if any. -/
def lastIndexOf (c : Char) : List Char → Option Nat
  | [] => none
  | x :: xs =>
    match lastIndexOf c xs with
    | some n => some (n + 1)
    | none => if x = c then some 0 else none

/-- Python str.rfind for a single character: last index, or -1 when absent. -/
def rfind (c : Char) (l : List Char) : Int :=
  match lastIndexOf c l with
  | some n => (n : Int)
  | none => -1

/-- os.path.splitext(p)[0] (posixpath): split off the extension at the last
dot of the basename, unless the basename is all leading dots. -/
def splitextRoot (p : String) : String :=
  let l := p.toList
  let sepIndex := rfind '/' l
  let dotIndex := rfind '.' l
  if sepIndex < dotIndex then
    let base := (l.drop (sepIndex + 1).toNat).take (dotIndex - sepIndex - 1).toNat
    if base.any (fun ch => ch != '.') then String.mk (l.take dotIndex.toNat) else p
  else p

/-- Python substring containment: needle in hay. -/
def strContains (hay needle : String) : Bool :=
  decide (needle.toList <:+: hay.toList)

/-- os.path.join for the two-argument posix case: an absolute second
component wins; otherwise a separator is inserted unless the root is empty
or already ends with one. -/
def pathJoin (a b : String) : String :=
  if b.toList.head? = some '/' then b
  else if a = "" || a.toList.getLast? = some '/' then a ++ b
  else a ++ "/" ++ b

/-- Filename derivation as written in the cache pre-load loop
(lines 97-102 of the source). -/
def preloadFilename (ext doc page_id : String) : String :=
  let filename := doc ++ "+" ++ page_id ++ ext
  if !(strContains filename ".pdf") then
    splitextRoot doc ++ "+" ++ page_id ++ ext
  else filename

/-- Filename derivation as re-written in the redaction loop over the
filtered rows (lines 114-119 of the source). -/
def redactFilename (ext doc page_id : String) : String :=
  let filename := doc ++ "+" ++ page_id ++ ext
  let processed_filename := filename
  if !(strContains filename ".pdf") then
    splitextRoot doc ++ "+" ++ page_id ++ ext
  else processed_filename

/-- The host-supplied configuration of the post-processor instance, together
with the module-level criteria (Design note: the criteria are module globals
in the source; they are threaded here as explicit configuration). -/
structure Config where
  img_extension : String
  resource_dir : String
  has_labelling_model : Bool
  labels_to_redact : List String
  text_patterns_to_redact : List String

/-- The exceptions get_entities can propagate: re.error from a malformed
pattern inside str.contains, and KeyError on the page-image dict. -/
inductive EntErr where
  | regexError
  | missingPage
deriving DecidableEq, Repr

/-- One emitted data bundle (CustomEntity). -/
structure Bundle where
  pageIndex : String
  redactedData : String
  image : String
deriving DecidableEq, Repr

/-- Python dict lookup on the insertion-ordered image dict. -/
def assocLookup (c : List (String × Image)) (k : String) : Option Image :=
  match c with
  | [] => none
  | kv :: rest => if kv.1 = k then some kv.2 else assocLookup rest k

/-- In-place mutation of the bitmap stored under an existing key. -/
def assocUpdate (c : List (String × Image)) (k : String) (v : Image) :
    List (String × Image) :=
  c.map (fun kv => if kv.1 = k then (kv.1, v) else kv)

/-- Line 92 of the source: a fresh uuid4 string is assigned to the id column
of every row; the uuid source is modelled by the stream gen. -/
def withIds (gen : Nat → String) (t : List Row) : List Row :=
  t.enum.map (fun ir => { ir.2 with id := gen ir.1 })

/-- The cache pre-load loop (lines 96-109): one pass over the full table;
a page not yet processed has its file read (the read is logged by page id);
on success the bitmap copy is cached under the derived filename and the
page id is marked processed; on failure nothing is recorded. -/
def preloadGo (cfg : Config) (fs : String → Option String) (doc : String) :
    List Row → List (String × Image) → List String → List String →
    List (String × Image) × List String × List String
  | [], cache, processed, log => (cache, processed, log)
  | row :: rest, cache, processed, log =>
    if processed.contains row.page_id then
      preloadGo cfg fs doc rest cache processed log
    else
      let filename := preloadFilename cfg.img_extension doc row.page_id
      let img_path := pathJoin cfg.resource_dir filename
      match fs img_path with
      | some content =>
        preloadGo cfg fs doc rest (cache ++ [(filename, ⟨content, []⟩)])
          (processed ++ [row.page_id]) (log ++ [row.page_id])
      | none => preloadGo cfg fs doc rest cache processed (log ++ [row.page_id])

/-- The pre-load loop started on empty cache, empty processed set, empty log. -/
def preload (cfg : Config) (fs : String → Option String) (doc : String) (t : List Row) :
    List (String × Image) × List String × List String :=
  preloadGo cfg fs doc t [] [] []

/-- The redaction loop over the filtered rows (lines 113-134): per row,
re-derive the filename, black out the rectangle on the cached bitmap
(KeyError when the page is not cached), then append the row text to the
per-page redacted-text dict. -/
def redactLoop (cfg : Config) (doc : String) :
    List Row → List (String × Image) → (String → Option String) →
    Except EntErr (List (String × Image) × (String → Option String))
  | [], cache, tm => Except.ok (cache, tm)
  | row :: rest, cache, tm =>
    let pf := redactFilename cfg.img_extension doc row.page_id
    match assocLookup cache pf with
    | none => Except.error EntErr.missingPage
    | some img =>
      let cache2 := assocUpdate cache pf
        (redact_region img row.xmin row.ymin row.xmax row.ymax)
      let tm2 := fun p =>
        if p = row.page_id then
          some (match tm row.page_id with
            | some prev => prev ++ " | " ++ row.text
            | none => row.text)
        else tm p
      redactLoop cfg doc rest cache2 tm2

/-- The body of the per-document loop (lines 91-134): assign ids, reset and
pre-load the image cache, filter, then redact.  Returns this document's
read log (tagged with the doc key) and the new cache and text dict. -/
def processDoc (cfg : Config) (eng : RegexEngine) (fs : String → Option String)
    (gen : Nat → String) (tm : String → Option String) (doc : String) (t : List Row) :
    List (String × String) × Except EntErr (List (String × Image) × (String → Option String)) :=
  let t1 := withIds gen t
  let pl := preload cfg fs doc t1
  let log := pl.2.2.map (fun p => (doc, p))
  match (get_filtered_predictions eng cfg.labels_to_redact cfg.text_patterns_to_redact t1).2 with
  | Except.error _ => (log, Except.error EntErr.regexError)
  | Except.ok filtered =>
    match redactLoop cfg doc filtered pl.1 tm with
    | Except.error e => (log, Except.error e)
    | Except.ok st => (log, Except.ok st)

/-- The loop over the document keys: the image cache is re-initialized for
each document (so the previous document's cache is discarded), while the
redacted-text dict is threaded through all documents. -/
def processDocs (cfg : Config) (eng : RegexEngine) (fs : String → Option String)
    (gen : Nat → String) :
    List (String × List Row) → List (String × Image) → (String → Option String) →
    List (String × String) →
    List (String × String) × Except EntErr (List (String × Image) × (String → Option String))
  | [], cache, tm, log => (log, Except.ok (cache, tm))
  | (d, t) :: rest, _cache, tm, log =>
    let pr := processDoc cfg eng fs gen tm d t
    match pr.2 with
    | Except.error e => (log ++ pr.1, Except.error e)
    | Except.ok st => processDocs cfg eng fs gen rest st.1 st.2 (log ++ pr.1)

/-- Python str.split worker: left-to-right, non-overlapping occurrences of
the separator; structurally recursive on a fuel bound (one unit per
consumed character) so that it evaluates inside the kernel. -/
def pySplitAux (sep : List Char) : Nat → List Char → List Char → List (List Char)
  | 0, l, acc => [acc.reverse ++ l]
  | fuel + 1, l, acc =>
    match l with
    | [] => [acc.reverse]
    | c :: rest =>
      if sep.isPrefixOf l then
        acc.reverse :: pySplitAux sep fuel (l.drop sep.length) []
      else
        pySplitAux sep fuel rest (c :: acc)

/-- Python str.split with a non-empty separator string. -/
def pySplit (s sep : String) : List String :=
  if sep = "" then [s]
  else (pySplitAux sep.toList (s.toList.length + 1) s.toList []).map String.mk

/-- pageIndex extraction at bundle build time (line 139): the text between
the first "+" and the extension, via filename.split on "+" then on ext. -/
def pageIndexOf (ext filename : String) : String :=
  (pySplit ((pySplit filename "+").getD 1 "") ext).getD 0 ""

/-- The bundle-building loop (lines 137-152): one bundle per cache entry in
dict order; the text dict is consulted with default empty string; png and
base64 encoding of the bitmap are modelled by the parameter enc. -/
def buildBundles (cfg : Config) (enc : Image → String)
    (cache : List (String × Image)) (tm : String → Option String) : List Bundle :=
  cache.map (fun kv =>
    { pageIndex := pageIndexOf cfg.img_extension kv.1,
      redactedData := (tm (pageIndexOf cfg.img_extension kv.1)).getD "",
      image := enc kv.2 })

/-- PostProcessor.get_entities.  The merge engine (doc_to_df and
post_process_predictions) is external; its output, the dict of per-document
prediction tables, is the docs argument.  The first component is the full
imread log (doc key, page id per read attempt). -/
def get_entities (cfg : Config) (eng : RegexEngine) (fs : String → Option String)
    (gen : Nat → String) (enc : Image → String) (docs : List (String × List Row)) :
    List (String × String) × Except EntErr (List Bundle) :=
  if !cfg.has_labelling_model then ([], Except.ok [])
  else
    let pr := processDocs cfg eng fs gen docs [] (fun _ => none) []
    match pr.2 with
    | Except.error e => (pr.1, Except.error e)
    | Except.ok st => (pr.1, Except.ok (buildBundles cfg enc st.1 st.2))

/-- Reference join: texts joined with the separator, empty for the empty list. -/
def joinBar : List String → String
  | [] => ""
  | [t] => t
  | t :: ts => t ++ " | " ++ joinBar ts

/-- Reference accumulator mirroring the text-dict update of one page across
a list of contributed texts. -/
def accText (init : Option String) (texts : List String) : Option String :=
  texts.foldl (fun acc t =>
    some (match acc with
      | some prev => prev ++ " | " ++ t
      | none => t)) init

/-- The filtered frame of one document's table as computed inside
get_entities (ids assigned first), defaulting to empty on re.error. -/
def docFiltered (cfg : Config) (eng : RegexEngine) (gen : Nat → String) (t : List Row) :
    List Row :=
  match (get_filtered_predictions eng cfg.labels_to_redact cfg.text_patterns_to_redact
      (withIds gen t)).2 with
  | Except.ok l => l
  | Except.error _ => []

/-- All documents' filtered rows, in processing order. -/
def allFiltered (cfg : Config) (eng : RegexEngine) (gen : Nat → String)
    (docs : List (String × List Row)) : List Row :=
  (docs.map (fun dt => docFiltered cfg eng gen dt.2)).flatten

deriving instance DecidableEq for Except

/-- A concrete stand-in for the regex library, used to evaluate the claims
on concrete inputs: the single pattern "(" is malformed; every other
pattern matches by literal substring search. -/
def plainEngine : RegexEngine :=
  ⟨fun p => if p = "(" then none else some (fun s => strContains s p)⟩

/-- A filesystem on which every path loads; the content is the path itself. -/
def fsPath : String → Option String := fun p => some p

/-- A filesystem on which no path loads (every imread returns None). -/
def fsEmpty : String → Option String := fun _ => none

/-- A concrete encoder for witnesses: exposes the source content only. -/
def encSrc : Image → String := fun img => img.src

/-- A concrete uuid stream for witnesses. -/
def genNum : Nat → String := fun n => toString n

/-- A concrete configuration builder for witnesses and counterexamples. -/
def mkCfg (labels pats : List String) : Config :=
  { img_extension := ".png", resource_dir := "res", has_labelling_model := true,
    labels_to_redact := labels, text_patterns_to_redact := pats }

/-- Texts of the rows of a list that target a given page, in list order. -/
def pageTexts (p : String) (rows : List Row) : List String :=
  (rows.filter (fun r => r.page_id = p)).map Row.text

/-- A row matches the criteria: its label is in the configured label list,
or some configured pattern compiles to a matcher accepting its text. -/
def rowMatches (eng : RegexEngine) (labels pats : List String) (r : Row) : Prop :=
  labels.contains r.label = true ∨
    ∃ p ∈ pats, ∃ m, eng.compile p = some m ∧ m r.text = true

/-- Concrete fixture row on page 0 of document a.png with text "a". -/
def rowA : Row :=
  { label := "O", text := "a", xmin := 0, ymin := 0, xmax := 5, ymax := 5,
    page_id := "0", doc_id := "a.png", id := "" }

/-- Concrete fixture row on page 0 of document a.png with text "b". -/
def rowB : Row :=
  { label := "O", text := "b", xmin := 1, ymin := 1, xmax := 6, ymax := 6,
    page_id := "0", doc_id := "a.png", id := "" }

/-- Concrete fixture row on page 1 of document b.png. -/
def rowC : Row :=
  { label := "O", text := "c", xmin := 2, ymin := 2, xmax := 7, ymax := 7,
    page_id := "1", doc_id := "b.png", id := "" }

/-- rowA after the id assignment of get_entities with the genNum stream. -/
def rowA0 : Row := { rowA with id := "0" }

/-- Fixture bundle: page 0 of a.png with redacted text "a". -/
def bundle0A : Bundle := { pageIndex := "0", redactedData := "a", image := "res/a+0.png" }

/-- Fixture bundle: page 0 of a.png, nothing redacted. -/
def bundle0E : Bundle := { pageIndex := "0", redactedData := "", image := "res/a+0.png" }

/-- Fixture bundle: page 1 of a.png, nothing redacted. -/
def bundle1E : Bundle := { pageIndex := "1", redactedData := "", image := "res/a+1.png" }

/-- Fixture bundle: page 1 of b.png, nothing redacted. -/
def bundle1B : Bundle := { pageIndex := "1", redactedData := "", image := "res/b+1.png" }

section Lemmas

theorem dropWhile_dropWhile (p : Char → Bool) (l : List Char) :
    (l.dropWhile p).dropWhile p = l.dropWhile p := by
  induction l with
  | nil => rfl
  | cons x xs ih =>
    by_cases h : p x
    · simpa [List.dropWhile_cons, h] using ih
    · simp [List.dropWhile_cons, h]

theorem dropWhile_eq_self_of_prefix {p : Char → Bool} {l m : List Char}
    (h : l.dropWhile p = l) (hm : m <+: l) : m.dropWhile p = m := by
  cases m with
  | nil => rfl
  | cons c cs =>
    cases l with
    | nil => simp at hm
    | cons d ds =>
      obtain ⟨hcd, -⟩ := (List.cons_prefix_cons.mp hm)
      have hpd : p d = false := by
        cases hq : p d with
        | false => rfl
        | true =>
          rw [List.dropWhile_cons, if_pos hq] at h
          have h1 : (ds.dropWhile p).length = ds.length + 1 := by rw [h]; simp
          have h2 := (List.dropWhile_sublist (l := ds) p).length_le
          omega
      subst hcd
      simp [List.dropWhile_cons, hpd]

theorem pyStripList_idem (l : List Char) : pyStripList (pyStripList l) = pyStripList l := by
  have haa : (l.dropWhile isPySpace).dropWhile isPySpace = l.dropWhile isPySpace :=
    dropWhile_dropWhile _ _
  have hrev : (pyStripList l).reverse = (l.dropWhile isPySpace).reverse.dropWhile isPySpace := by
    simp [pyStripList]
  have hpre : pyStripList l <+: l.dropWhile isPySpace := by
    have h1 : (l.dropWhile isPySpace).reverse.dropWhile isPySpace <:+
        (l.dropWhile isPySpace).reverse := List.dropWhile_suffix _
    have h2 := List.reverse_prefix.mpr h1
    rw [List.reverse_reverse] at h2
    exact h2
  have hsd : (pyStripList l).dropWhile isPySpace = pyStripList l :=
    dropWhile_eq_self_of_prefix haa hpre
  calc pyStripList (pyStripList l)
      = (((pyStripList l).dropWhile isPySpace).reverse.dropWhile isPySpace).reverse := rfl
    _ = ((pyStripList l).reverse.dropWhile isPySpace).reverse := by rw [hsd]
    _ = (((l.dropWhile isPySpace).reverse.dropWhile isPySpace).dropWhile
          isPySpace).reverse := by rw [hrev]
    _ = ((l.dropWhile isPySpace).reverse.dropWhile isPySpace).reverse := by
          rw [dropWhile_dropWhile]
    _ = pyStripList l := rfl

theorem pyStrip_idem (s : String) : pyStrip (pyStrip s) = pyStrip s := by
  unfold pyStrip
  have : (String.mk (pyStripList s.toList)).toList = pyStripList s.toList := rfl
  rw [this, pyStripList_idem]

theorem stripRow_idem (r : Row) : stripRow (stripRow r) = stripRow r := by
  simp [stripRow, pyStrip_idem]

theorem stripRow_of_mem_stripTable {t : List Row} {r : Row}
    (h : r ∈ stripTable t) : stripRow r = r := by
  obtain ⟨r0, -, rfl⟩ := List.mem_map.mp h
  exact stripRow_idem r0

theorem mem_dropDupAux {seen l : List Row} {r : Row} :
    r ∈ dropDupAux seen l ↔ r ∈ l ∧ r ∉ seen := by
  induction l generalizing seen with
  | nil => simp [dropDupAux]
  | cons x xs ih =>
    by_cases hx : x ∈ seen
    · rw [dropDupAux, if_pos hx, ih]
      constructor
      · rintro ⟨hm, hn⟩
        exact ⟨List.mem_cons_of_mem _ hm, hn⟩
      · rintro ⟨hm, hn⟩
        rcases List.mem_cons.mp hm with rfl | hm'
        · exact absurd hx hn
        · exact ⟨hm', hn⟩
    · rw [dropDupAux, if_neg hx]
      constructor
      · intro hm
        rcases List.mem_cons.mp hm with rfl | hm'
        · exact ⟨List.mem_cons_self _ _, hx⟩
        · obtain ⟨h1, h2⟩ := ih.mp hm'
          refine ⟨List.mem_cons_of_mem _ h1, ?_⟩
          intro hc
          exact h2 (List.mem_cons_of_mem _ hc)
      · rintro ⟨hm, hn⟩
        rcases List.mem_cons.mp hm with rfl | hm'
        · exact List.mem_cons_self _ _
        · by_cases hr : r = x
          · subst hr; exact List.mem_cons_self _ _
          · refine List.mem_cons_of_mem _ (ih.mpr ⟨hm', ?_⟩)
            intro hc
            rcases List.mem_cons.mp hc with h1 | h2
            · exact hr h1
            · exact hn h2

theorem mem_dropDuplicates {l : List Row} {r : Row} :
    r ∈ dropDuplicates l ↔ r ∈ l := by
  rw [dropDuplicates, mem_dropDupAux]
  simp

theorem dropDupAux_sublist (seen l : List Row) : List.Sublist (dropDupAux seen l) l := by
  induction l generalizing seen with
  | nil => simp [dropDupAux]
  | cons x xs ih =>
    by_cases hx : x ∈ seen
    · rw [dropDupAux, if_pos hx]
      exact (ih seen).trans (List.sublist_cons_self _ _)
    · rw [dropDupAux, if_neg hx]
      exact (ih (x :: seen)).cons₂ x

theorem patternSelections_error_iff {eng : RegexEngine} {t : List Row} {pats : List String} :
    patternSelections eng t pats = Except.error () ↔ ∃ p ∈ pats, eng.compile p = none := by
  induction pats with
  | nil => simp [patternSelections]
  | cons q qs ih =>
    cases hq : eng.compile q with
    | none => simp [patternSelections, hq]
    | some m =>
      cases hrest : patternSelections eng t qs with
      | error e =>
        have : ∃ p ∈ qs, eng.compile p = none := ih.mp (by rw [hrest])
        simp only [patternSelections, hq, hrest]
        constructor
        · intro _
          obtain ⟨p, hp1, hp2⟩ := this
          exact ⟨p, List.mem_cons_of_mem _ hp1, hp2⟩
        · intro _; trivial
      | ok sels =>
        simp only [patternSelections, hq, hrest]
        constructor
        · intro h; exact absurd h (by simp)
        · rintro ⟨p, hp1, hp2⟩
          rcases List.mem_cons.mp hp1 with rfl | hp'
          · rw [hq] at hp2; exact absurd hp2 (by simp)
          · have : patternSelections eng t qs = Except.error () := ih.mpr ⟨p, hp', hp2⟩
            rw [hrest] at this
            exact absurd this (by simp)

theorem mem_flatten_patternSelections {eng : RegexEngine} {t : List Row}
    {pats : List String} {sels : List (List Row)} {r : Row}
    (h : patternSelections eng t pats = Except.ok sels) :
    (r ∈ sels.flatten ↔ r ∈ t ∧ ∃ p ∈ pats, ∃ m, eng.compile p = some m ∧ m r.text = true) := by
  induction pats generalizing sels with
  | nil =>
    simp only [patternSelections] at h
    cases h
    simp
  | cons q qs ih =>
    cases hq : eng.compile q with
    | none => simp [patternSelections, hq] at h
    | some m =>
      simp only [patternSelections, hq] at h
      cases hrest : patternSelections eng t qs with
      | error e => rw [hrest] at h; exact absurd h (by simp)
      | ok sels' =>
        rw [hrest] at h
        cases h
        have ihr := ih hrest
        simp only [List.flatten_cons, List.mem_append, List.mem_filter, ihr]
        constructor
        · rintro (⟨h1, h2⟩ | ⟨h1, p, hp1, mm, hm1, hm2⟩)
          · exact ⟨h1, q, List.mem_cons_self _ _, m, hq, by simpa using h2⟩
          · exact ⟨h1, p, List.mem_cons_of_mem _ hp1, mm, hm1, hm2⟩
        · rintro ⟨h1, p, hp1, mm, hm1, hm2⟩
          rcases List.mem_cons.mp hp1 with rfl | hp'
          · rw [hq] at hm1
            cases hm1
            exact Or.inl ⟨h1, by simpa using hm2⟩
          · exact Or.inr ⟨h1, p, hp', mm, hm1, hm2⟩

theorem gfp_fst (eng : RegexEngine) (labels pats : List String) (t : List Row) :
    (get_filtered_predictions eng labels pats t).1 = stripTable t := by
  unfold get_filtered_predictions
  cases h : patternFiltered eng pats (stripTable t) <;> simp [h]

theorem mem_labelFiltered {labels : List String} {t : List Row} {r : Row} :
    r ∈ labelFiltered labels t ↔ r ∈ t ∧ labels.contains r.label = true := by
  unfold labelFiltered
  by_cases h : labels.isEmpty
  · rw [if_pos h]
    have : labels = [] := List.isEmpty_iff.mp h
    subst this
    simp
  · rw [if_neg h]
    simp [List.mem_filter]

theorem gfp_snd (eng : RegexEngine) (labels pats : List String) (t : List Row) :
    (get_filtered_predictions eng labels pats t).2 =
      match patternFiltered eng pats (stripTable t) with
      | Except.error e => Except.error e
      | Except.ok pf =>
          Except.ok (dropDupAux [] (labelFiltered labels (stripTable t) ++ pf)) := by
  unfold get_filtered_predictions
  cases h : patternFiltered eng pats (stripTable t) <;> simp [h]

theorem mem_gfp_ok {eng : RegexEngine} {labels pats : List String} {t l : List Row} {r : Row}
    (h : (get_filtered_predictions eng labels pats t).2 = Except.ok l) :
    (r ∈ l ↔ r ∈ stripTable t ∧ rowMatches eng labels pats r) := by
  rw [gfp_snd] at h
  cases hpf : patternFiltered eng pats (stripTable t) with
  | error e => rw [hpf] at h; exact absurd h (by simp)
  | ok pf =>
    rw [hpf] at h
    simp only at h
    cases h
    unfold patternFiltered at hpf
    rw [← dropDuplicates]
    rw [mem_dropDuplicates, List.mem_append, mem_labelFiltered]
    by_cases hp : pats.isEmpty
    · rw [if_pos hp] at hpf
      cases hpf
      have hpe : pats = [] := List.isEmpty_iff.mp hp
      subst hpe
      simp [rowMatches]
    · rw [if_neg hp] at hpf
      cases hsel : patternSelections eng (stripTable t) pats with
      | error e => rw [hsel] at hpf; exact absurd hpf (by simp)
      | ok sels =>
        rw [hsel] at hpf
        simp only at hpf
        cases hpf
        rw [mem_dropDuplicates, mem_flatten_patternSelections hsel]
        unfold rowMatches
        constructor
        · rintro (⟨h1, h2⟩ | ⟨h1, h2⟩)
          · exact ⟨h1, Or.inl h2⟩
          · exact ⟨h1, Or.inr h2⟩
        · rintro ⟨h1, h2 | h2⟩
          · exact Or.inl ⟨h1, h2⟩
          · exact Or.inr ⟨h1, h2⟩

theorem gfp_error_iff {eng : RegexEngine} {labels pats : List String} {t : List Row} :
    (∃ e, (get_filtered_predictions eng labels pats t).2 = Except.error e) ↔
      ¬pats.isEmpty ∧ ∃ p ∈ pats, eng.compile p = none := by
  rw [gfp_snd]
  unfold patternFiltered
  by_cases hp : pats.isEmpty
  · simp [hp]
  · rw [if_neg hp]
    cases hsel : patternSelections eng (stripTable t) pats with
    | error e =>
      cases e
      have hex := patternSelections_error_iff.mp hsel
      constructor
      · intro _
        exact ⟨hp, hex⟩
      · intro _
        exact ⟨(), rfl⟩
    | ok sels =>
      simp only
      constructor
      · rintro ⟨e, he⟩; exact absurd he (by simp)
      · rintro ⟨-, p, hp1, hp2⟩
        have : patternSelections eng (stripTable t) pats = Except.error () :=
          patternSelections_error_iff.mpr ⟨p, hp1, hp2⟩
        rw [hsel] at this
        exact absurd this (by simp)

theorem accText_some (s : String) (ts : List String) :
    accText (some s) ts = some (joinBar (s :: ts)) := by
  induction ts generalizing s with
  | nil => rfl
  | cons t ts ih =>
    show accText (some (s ++ " | " ++ t)) ts = _
    rw [ih]
    congr 1
    cases ts with
    | nil => rfl
    | cons u us =>
      show (s ++ " | " ++ t) ++ " | " ++ joinBar (u :: us) =
        s ++ " | " ++ (t ++ " | " ++ joinBar (u :: us))
      simp [String.append_assoc]

theorem accText_none_cons (t : String) (ts : List String) :
    accText none (t :: ts) = some (joinBar (t :: ts)) := by
  show accText (some t) ts = _
  exact accText_some t ts

theorem accText_append (i : Option String) (ts1 ts2 : List String) :
    accText i (ts1 ++ ts2) = accText (accText i ts1) ts2 := by
  unfold accText
  rw [List.foldl_append]

theorem getD_accText_none (ts : List String) :
    (accText none ts).getD "" = joinBar ts := by
  cases ts with
  | nil => rfl
  | cons t ts => rw [accText_none_cons]; rfl

theorem assocUpdate_keys (c : List (String × Image)) (k : String) (v : Image) :
    (assocUpdate c k v).map Prod.fst = c.map Prod.fst := by
  induction c with
  | nil => rfl
  | cons kv rest ih =>
    by_cases h : kv.1 = k
    · simp [assocUpdate, h] at ih ⊢
      exact ih
    · simp [assocUpdate, h] at ih ⊢
      exact ih

theorem assocLookup_none_iff (c : List (String × Image)) (k : String) :
    assocLookup c k = none ↔ k ∉ c.map Prod.fst := by
  induction c with
  | nil => simp [assocLookup]
  | cons kv rest ih =>
    by_cases h : kv.1 = k
    · simp [assocLookup, h]
    · rw [assocLookup, if_neg h, ih]
      constructor
      · intro hn
        simp only [List.map_cons, List.mem_cons]
        rintro (hc | hc)
        · exact h hc.symm
        · exact hn hc
      · intro hn hc
        exact hn (by simp only [List.map_cons, List.mem_cons]; exact Or.inr hc)

theorem assocLookup_update_none {c : List (String × Image)} {k k2 : String} {v : Image}
    (h : assocLookup c k = none) : assocLookup (assocUpdate c k2 v) k = none := by
  rw [assocLookup_none_iff, assocUpdate_keys]
  exact (assocLookup_none_iff c k).mp h

theorem redactLoop_ok_tm {cfg : Config} {doc : String} {rows : List Row}
    {cache c2 : List (String × Image)} {tm tm2 : String → Option String}
    (h : redactLoop cfg doc rows cache tm = Except.ok (c2, tm2)) (p : String) :
    tm2 p = accText (tm p) (pageTexts p rows) := by
  induction rows generalizing cache tm with
  | nil =>
    simp only [redactLoop] at h
    cases h
    rfl
  | cons row rest ih =>
    cases hl : assocLookup cache (redactFilename cfg.img_extension doc row.page_id) with
    | none => simp [redactLoop, hl] at h
    | some img =>
      simp only [redactLoop, hl] at h
      have hrec := ih h
      by_cases hp : p = row.page_id
      · subst hp
        rw [if_pos rfl] at hrec
        rw [hrec]
        have hfilter : pageTexts row.page_id (row :: rest) =
            row.text :: pageTexts row.page_id rest := by
          simp [pageTexts, List.filter_cons]
        rw [hfilter]
        rfl
      · rw [if_neg hp] at hrec
        rw [hrec]
        have hfilter : pageTexts p (row :: rest) = pageTexts p rest := by
          simp only [pageTexts, List.filter_cons]
          rw [if_neg]
          simp only [decide_eq_true_eq]
          intro hc
          exact hp hc.symm
        rw [hfilter]

theorem redactLoop_ok_keys {cfg : Config} {doc : String} {rows : List Row}
    {cache c2 : List (String × Image)} {tm tm2 : String → Option String}
    (h : redactLoop cfg doc rows cache tm = Except.ok (c2, tm2)) :
    c2.map Prod.fst = cache.map Prod.fst := by
  induction rows generalizing cache tm with
  | nil =>
    simp only [redactLoop] at h
    cases h
    rfl
  | cons row rest ih =>
    cases hl : assocLookup cache (redactFilename cfg.img_extension doc row.page_id) with
    | none => simp [redactLoop, hl] at h
    | some img =>
      simp only [redactLoop, hl] at h
      rw [ih h, assocUpdate_keys]

theorem redactLoop_error_of_missing {cfg : Config} {doc : String} {rows : List Row}
    {cache : List (String × Image)} {tm : String → Option String}
    (hex : ∃ r ∈ rows,
      assocLookup cache (redactFilename cfg.img_extension doc r.page_id) = none) :
    redactLoop cfg doc rows cache tm = Except.error EntErr.missingPage := by
  induction rows generalizing cache tm with
  | nil => simp at hex
  | cons row rest ih =>
    obtain ⟨r, hr, hnone⟩ := hex
    cases hl : assocLookup cache (redactFilename cfg.img_extension doc row.page_id) with
    | none => simp [redactLoop, hl]
    | some img =>
      rcases List.mem_cons.mp hr with rfl | hr'
      · rw [hl] at hnone
        exact absurd hnone (by simp)
      · simp only [redactLoop, hl]
        exact ih ⟨r, hr', assocLookup_update_none hnone⟩

theorem preloadGo_mem {cfg : Config} {fs : String → Option String} {doc : String}
    {rows : List Row} {cache : List (String × Image)} {processed log : List String}
    {fn : String}
    (hinv : ∀ p, p ∈ processed →
      preloadFilename cfg.img_extension doc p ∈ cache.map Prod.fst) :
    (fn ∈ (preloadGo cfg fs doc rows cache processed log).1.map Prod.fst ↔
      fn ∈ cache.map Prod.fst ∨ ∃ r ∈ rows,
        preloadFilename cfg.img_extension doc r.page_id = fn ∧
        fs (pathJoin cfg.resource_dir fn) ≠ none) := by
  induction rows generalizing cache processed log with
  | nil => simp [preloadGo]
  | cons row rest ih =>
    by_cases hmem : processed.contains row.page_id = true
    · rw [preloadGo, if_pos hmem]
      rw [ih hinv]
      have hpmem : row.page_id ∈ processed := by simpa using hmem
      have hcached := hinv row.page_id hpmem
      constructor
      · rintro (hc | ⟨r, hr, hcon⟩)
        · exact Or.inl hc
        · exact Or.inr ⟨r, List.mem_cons_of_mem _ hr, hcon⟩
      · rintro (hc | ⟨r, hr, h1, h2⟩)
        · exact Or.inl hc
        · rcases List.mem_cons.mp hr with rfl | hr'
          · rw [h1] at hcached
            exact Or.inl hcached
          · exact Or.inr ⟨r, hr', h1, h2⟩
    · rw [preloadGo, if_neg hmem]
      cases himg : fs (pathJoin cfg.resource_dir
          (preloadFilename cfg.img_extension doc row.page_id)) with
      | some content =>
        have hinv2 : ∀ p, p ∈ processed ++ [row.page_id] →
            preloadFilename cfg.img_extension doc p ∈
              (cache ++ [(preloadFilename cfg.img_extension doc row.page_id,
                Image.mk content [])]).map Prod.fst := by
          intro p hp
          rw [List.map_append, List.mem_append]
          rcases List.mem_append.mp hp with hp' | hp'
          · exact Or.inl (hinv p hp')
          · simp at hp'
            subst hp'
            simp
        simp only [himg]
        rw [ih hinv2]
        rw [List.map_append, List.mem_append]
        constructor
        · rintro ((hc | hc) | ⟨r, hr, hcon⟩)
          · exact Or.inl hc
          · simp at hc
            refine Or.inr ⟨row, List.mem_cons_self _ _, hc.symm, ?_⟩
            rw [hc, himg]
            simp
          · exact Or.inr ⟨r, List.mem_cons_of_mem _ hr, hcon⟩
        · rintro (hc | ⟨r, hr, h1, h2⟩)
          · exact Or.inl (Or.inl hc)
          · rcases List.mem_cons.mp hr with rfl | hr'
            · refine Or.inl (Or.inr ?_)
              simp [h1]
            · exact Or.inr ⟨r, hr', h1, h2⟩
      | none =>
        simp only [himg]
        rw [ih hinv]
        constructor
        · rintro (hc | ⟨r, hr, hcon⟩)
          · exact Or.inl hc
          · exact Or.inr ⟨r, List.mem_cons_of_mem _ hr, hcon⟩
        · rintro (hc | ⟨r, hr, h1, h2⟩)
          · exact Or.inl hc
          · rcases List.mem_cons.mp hr with rfl | hr'
            · rw [← h1] at h2
              exact absurd himg h2
            · exact Or.inr ⟨r, hr', h1, h2⟩

theorem preload_mem {cfg : Config} {fs : String → Option String} {doc : String}
    {t : List Row} {fn : String} :
    fn ∈ (preload cfg fs doc t).1.map Prod.fst ↔
      ∃ r ∈ t, preloadFilename cfg.img_extension doc r.page_id = fn ∧
        fs (pathJoin cfg.resource_dir fn) ≠ none := by
  rw [preload, preloadGo_mem (by intro p hp; simp at hp)]
  simp

theorem preloadGo_count {cfg : Config} {fs : String → Option String} {doc : String}
    {rows : List Row} {cache : List (String × Image)} {processed log : List String}
    {q : String}
    (hload : fs (pathJoin cfg.resource_dir (preloadFilename cfg.img_extension doc q)) ≠ none)
    (hinv : List.count q log ≤ (if q ∈ processed then 1 else 0)) :
    List.count q (preloadGo cfg fs doc rows cache processed log).2.2 ≤ 1 := by
  induction rows generalizing cache processed log with
  | nil =>
    simp only [preloadGo]
    by_cases hq : q ∈ processed
    · rw [if_pos hq] at hinv; exact hinv
    · rw [if_neg hq] at hinv; omega
  | cons row rest ih =>
    by_cases hmem : processed.contains row.page_id = true
    · rw [preloadGo, if_pos hmem]
      exact ih hinv
    · rw [preloadGo, if_neg hmem]
      have hnp : row.page_id ∉ processed := by simpa using hmem
      cases himg : fs (pathJoin cfg.resource_dir
          (preloadFilename cfg.img_extension doc row.page_id)) with
      | some content =>
        simp only [himg]
        apply ih
        by_cases hq : q = row.page_id
        · subst hq
          rw [if_neg hnp] at hinv
          have hc0 : List.count row.page_id log = 0 := by omega
          have hin : row.page_id ∈ processed ++ [row.page_id] := by simp
          rw [List.count_append, hc0, if_pos hin]
          simp [List.count_singleton]
        · have hc1 : List.count q [row.page_id] = 0 := by
            simp [List.count_singleton, Ne.symm hq]
          have hiff : (q ∈ processed ++ [row.page_id]) ↔ q ∈ processed := by
            simp [hq]
          rw [List.count_append, hc1, if_congr hiff rfl rfl]
          simpa using hinv
      | none =>
        simp only [himg]
        apply ih
        by_cases hq : q = row.page_id
        · subst hq
          exact absurd himg hload
        · have hc1 : List.count q [row.page_id] = 0 := by
            simp [List.count_singleton, Ne.symm hq]
          rw [List.count_append, hc1]
          simpa using hinv

theorem preload_count {cfg : Config} {fs : String → Option String} {doc : String}
    {t : List Row} {q : String}
    (hload : fs (pathJoin cfg.resource_dir (preloadFilename cfg.img_extension doc q)) ≠ none) :
    List.count q (preload cfg fs doc t).2.2 ≤ 1 := by
  rw [preload]
  exact preloadGo_count hload (by simp)

theorem pageTexts_append (p : String) (a b : List Row) :
    pageTexts p (a ++ b) = pageTexts p a ++ pageTexts p b := by
  simp [pageTexts, List.filter_append]

theorem processDoc_ok {cfg : Config} {eng : RegexEngine} {fs : String → Option String}
    {gen : Nat → String} {tm : String → Option String} {d : String} {t : List Row}
    {c2 : List (String × Image)} {tm2 : String → Option String}
    (h : (processDoc cfg eng fs gen tm d t).2 = Except.ok (c2, tm2)) :
    (get_filtered_predictions eng cfg.labels_to_redact cfg.text_patterns_to_redact
        (withIds gen t)).2 = Except.ok (docFiltered cfg eng gen t) ∧
      redactLoop cfg d (docFiltered cfg eng gen t) (preload cfg fs d (withIds gen t)).1 tm =
        Except.ok (c2, tm2) := by
  simp only [processDoc] at h
  cases hf : (get_filtered_predictions eng cfg.labels_to_redact cfg.text_patterns_to_redact
      (withIds gen t)).2 with
  | error e =>
    rw [hf] at h
    simp at h
  | ok filt =>
    rw [hf] at h
    simp only at h
    have hdf : docFiltered cfg eng gen t = filt := by
      simp [docFiltered, hf]
    cases hr : redactLoop cfg d filt (preload cfg fs d (withIds gen t)).1 tm with
    | error e =>
      rw [hr] at h
      simp at h
    | ok st =>
      rw [hr] at h
      simp only at h
      injection h with h2
      subst h2
      constructor
      · rw [hdf]
      · rw [hdf]
        exact hr

theorem processDocs_ok_tm {cfg : Config} {eng : RegexEngine} {fs : String → Option String}
    {gen : Nat → String} {docs : List (String × List Row)}
    {cache : List (String × Image)} {tm : String → Option String}
    {log lg : List (String × String)} {c2 : List (String × Image)}
    {tm2 : String → Option String}
    (h : processDocs cfg eng fs gen docs cache tm log = (lg, Except.ok (c2, tm2)))
    (p : String) :
    tm2 p = accText (tm p) (pageTexts p (allFiltered cfg eng gen docs)) := by
  induction docs generalizing cache tm log with
  | nil =>
    simp only [processDocs, Prod.mk.injEq] at h
    obtain ⟨-, h2⟩ := h
    simp only [Except.ok.injEq, Prod.mk.injEq] at h2
    obtain ⟨-, h3⟩ := h2
    subst h3
    simp [allFiltered, pageTexts, accText]
  | cons dt rest ih =>
    obtain ⟨d, t⟩ := dt
    simp only [processDocs] at h
    cases hpd : (processDoc cfg eng fs gen tm d t).2 with
    | error e =>
      rw [hpd] at h
      simp at h
    | ok st =>
      rw [hpd] at h
      simp only at h
      have hrec := ih h
      obtain ⟨-, hr⟩ := processDoc_ok hpd
      have h1 := redactLoop_ok_tm hr p
      rw [hrec, h1, ← accText_append, ← pageTexts_append]
      congr 1

theorem processDocs_ok_last {cfg : Config} {eng : RegexEngine} {fs : String → Option String}
    {gen : Nat → String} {docs : List (String × List Row)}
    {cache : List (String × Image)} {tm : String → Option String}
    {log lg : List (String × String)} {c2 : List (String × Image)}
    {tm2 : String → Option String}
    (h : processDocs cfg eng fs gen docs cache tm log = (lg, Except.ok (c2, tm2))) :
    (docs = [] ∧ c2 = cache ∧ tm2 = tm) ∨
    ∃ ds d t tmPrev, docs = ds ++ [(d, t)] ∧
      (processDoc cfg eng fs gen tmPrev d t).2 = Except.ok (c2, tm2) := by
  induction docs generalizing cache tm log with
  | nil =>
    simp only [processDocs, Prod.mk.injEq] at h
    obtain ⟨-, h2⟩ := h
    simp only [Except.ok.injEq, Prod.mk.injEq] at h2
    exact Or.inl ⟨rfl, h2.1.symm, h2.2.symm⟩
  | cons dt rest ih =>
    obtain ⟨d, t⟩ := dt
    simp only [processDocs] at h
    cases hpd : (processDoc cfg eng fs gen tm d t).2 with
    | error e =>
      rw [hpd] at h
      simp at h
    | ok st =>
      rw [hpd] at h
      simp only at h
      rcases ih h with ⟨hrest, hc2, htm2⟩ | ⟨ds, d', t', tmPrev, hds, hpd'⟩
      · subst hrest
        refine Or.inr ⟨[], d, t, tm, by simp, ?_⟩
        rw [hc2, htm2]
        exact hpd
      · exact Or.inr ⟨(d, t) :: ds, d', t', tmPrev, by rw [hds]; rfl, hpd'⟩

theorem get_entities_of_processDocs {cfg : Config} {eng : RegexEngine}
    {fs : String → Option String} {gen : Nat → String} {enc : Image → String}
    {docs : List (String × List Row)}
    (hm : cfg.has_labelling_model = true) :
    get_entities cfg eng fs gen enc docs =
      ((processDocs cfg eng fs gen docs [] (fun _ => none) []).1,
        match (processDocs cfg eng fs gen docs [] (fun _ => none) []).2 with
        | Except.error e => Except.error e
        | Except.ok st => Except.ok (buildBundles cfg enc st.1 st.2)) := by
  unfold get_entities
  rw [hm]
  cases hp : (processDocs cfg eng fs gen docs [] (fun _ => none) []).2 with
  | error e => simp [hp]
  | ok st => simp [hp]

theorem buildBundles_pageIndexes (cfg : Config) (enc : Image → String)
    (cache : List (String × Image)) (tm : String → Option String) :
    (buildBundles cfg enc cache tm).map Bundle.pageIndex =
      (cache.map Prod.fst).map (pageIndexOf cfg.img_extension) := by
  simp [buildBundles, List.map_map]

theorem append_singleton_inj {α : Type} {as bs : List α} {a b : α}
    (h : as ++ [a] = bs ++ [b]) : as = bs ∧ a = b := by
  have h2 := congrArg List.reverse h
  simp only [List.reverse_append, List.reverse_cons, List.reverse_nil,
    List.nil_append, List.singleton_append, List.cons.injEq] at h2
  obtain ⟨h3, h4⟩ := h2
  exact ⟨List.reverse_injective h4, h3⟩

theorem processDocs_singleton_ok {cfg : Config} {eng : RegexEngine}
    {fs : String → Option String} {gen : Nat → String} {d : String} {t : List Row}
    {cache : List (String × Image)} {tm : String → Option String}
    {log lg : List (String × String)} {c2 : List (String × Image)}
    {tm2 : String → Option String}
    (h : processDocs cfg eng fs gen [(d, t)] cache tm log = (lg, Except.ok (c2, tm2))) :
    (processDoc cfg eng fs gen tm d t).2 = Except.ok (c2, tm2) := by
  simp only [processDocs] at h
  cases hpd : (processDoc cfg eng fs gen tm d t).2 with
  | error e =>
    rw [hpd] at h
    simp at h
  | ok st =>
    rw [hpd] at h
    simp only [processDocs, Prod.mk.injEq, Except.ok.injEq] at h
    obtain ⟨-, h2, h3⟩ := h
    rw [← h2, ← h3]

theorem get_entities_ok_spec {cfg : Config} {eng : RegexEngine}
    {fs : String → Option String} {gen : Nat → String} {enc : Image → String}
    {docs : List (String × List Row)} {log : List (String × String)}
    {bundles : List Bundle}
    (hm : cfg.has_labelling_model = true)
    (h : get_entities cfg eng fs gen enc docs = (log, Except.ok bundles)) :
    ∃ c2 tm2, (processDocs cfg eng fs gen docs [] (fun _ => none) []).2 =
        Except.ok (c2, tm2) ∧
      bundles = buildBundles cfg enc c2 tm2 ∧
      ∀ p, tm2 p = accText none (pageTexts p (allFiltered cfg eng gen docs)) := by
  rw [get_entities_of_processDocs hm] at h
  cases hpd : (processDocs cfg eng fs gen docs [] (fun _ => none) []).2 with
  | error e =>
    rw [hpd] at h
    simp at h
  | ok st =>
    rw [hpd] at h
    simp only [Prod.mk.injEq, Except.ok.injEq] at h
    obtain ⟨-, h2⟩ := h
    refine ⟨st.1, st.2, rfl, h2.symm, ?_⟩
    intro p
    have hfull : processDocs cfg eng fs gen docs [] (fun _ => none) [] =
        ((processDocs cfg eng fs gen docs [] (fun _ => none) []).1,
          Except.ok (st.1, st.2)) := Prod.ext rfl hpd
    exact processDocs_ok_tm hfull p

end Lemmas

section Claims

/-- C6: for every extension, doc_id and page_id, the filename derived during
cache pre-loading (lines 97-102) equals the filename derived during redaction
of a filtered row for the same pair (lines 114-119): the same predicate
selects the same rule both times, so a pre-loaded page is found under the
same cache key at redaction time. -/
theorem c6_filename_derivation_agrees (ext doc page_id : String) :
    preloadFilename ext doc page_id = redactFilename ext doc page_id := rfl

/-- C10: get_filtered_predictions rewrites the caller's full prediction
table in place: afterwards every row's text column has surrounding
whitespace stripped and every other column is unchanged, whether or not
the call returns normally (the first component models the table state). -/
theorem c10_strip_frame_effect (eng : RegexEngine) (labels pats : List String)
    (t : List Row) :
    (get_filtered_predictions eng labels pats t).1 =
      t.map (fun r => { r with text := pyStrip r.text }) :=
  gfp_fst eng labels pats t

/-- C8: the filter is closed under re-application: running
get_filtered_predictions on its own output with the same criteria succeeds
and returns the same set of rows. -/
theorem c8_filter_idempotent {eng : RegexEngine} {labels pats : List String}
    {t l : List Row}
    (h : (get_filtered_predictions eng labels pats t).2 = Except.ok l) :
    ∃ l2, (get_filtered_predictions eng labels pats l).2 = Except.ok l2 ∧
      ∀ r, r ∈ l2 ↔ r ∈ l := by
  cases h2 : (get_filtered_predictions eng labels pats l).2 with
  | error e =>
    exfalso
    have hcond := gfp_error_iff.mp ⟨e, h2⟩
    obtain ⟨e', he'⟩ := (gfp_error_iff (t := t)).mpr hcond
    rw [h] at he'
    exact absurd he' (by simp)
  | ok l2 =>
    refine ⟨l2, rfl, ?_⟩
    intro r
    have hall : ∀ x ∈ l, stripRow x = x := by
      intro x hx
      exact stripRow_of_mem_stripTable ((mem_gfp_ok h).mp hx).1
    have hst : stripTable l = l := by
      unfold stripTable
      calc l.map stripRow = l.map id := List.map_congr_left hall
        _ = l := List.map_id l
    rw [mem_gfp_ok h2, hst]
    constructor
    · rintro ⟨h1, -⟩
      exact h1
    · intro hrl
      exact ⟨hrl, ((mem_gfp_ok h).mp hrl).2⟩

/-- C8 witness: a concrete run of the idempotence theorem on a two-row
table with the substring pattern "a". -/
theorem c8_filter_idempotent_witness :
    ∃ l2, (get_filtered_predictions plainEngine [] ["a"] [rowA]).2 = Except.ok l2 ∧
      ∀ r, r ∈ l2 ↔ r ∈ [rowA] :=
  c8_filter_idempotent (t := [rowA, rowB]) (by decide)

/-- C3 counterexample: with the two patterns "b" then "a" over the table
[rowA, rowB] the filter returns [rowB, rowA], which is not an
order-preserving subsequence of the (stripped) table: the claimed order
stability fails whenever a later pattern matches an earlier row. -/
theorem c3_result_order_counterexample :
    (get_filtered_predictions plainEngine [] ["b", "a"] [rowA, rowB]).2 =
        Except.ok [rowB, rowA] ∧
      ¬ List.Sublist [rowB, rowA] (stripTable [rowA, rowB]) := by
  constructor
  · rfl
  · intro hs
    have heq := hs.eq_of_length (by decide)
    exact absurd heq (by decide)

/-- C3 amended: each criterion's own selection is order stable; in
particular, when at most one criterion is active (no patterns, or no labels
and a single pattern), the filter result is an order-preserving subsequence
of the stripped table.  With several patterns (or labels plus a pattern)
the result is the concatenation of the per-criterion blocks and the
table-wide order can be violated. -/
theorem c3_result_order_amended {eng : RegexEngine} {labels pats : List String}
    {t l : List Row}
    (hcrit : pats = [] ∨ (labels = [] ∧ ∃ p, pats = [p]))
    (h : (get_filtered_predictions eng labels pats t).2 = Except.ok l) :
    List.Sublist l (stripTable t) := by
  rw [gfp_snd] at h
  rcases hcrit with hpe | ⟨hle, p, hpe⟩
  · subst hpe
    simp only [patternFiltered, List.isEmpty_nil, if_pos] at h
    simp only [List.append_nil] at h
    injection h with h1
    subst h1
    exact (dropDupAux_sublist [] _).trans (by
      unfold labelFiltered
      by_cases hl : labels.isEmpty
      · rw [if_pos hl]
        exact List.nil_sublist _
      · rw [if_neg hl]
        exact List.filter_sublist _)
  · subst hle
    subst hpe
    simp only [patternFiltered] at h
    cases hc : eng.compile p with
    | none =>
      rw [show patternSelections eng (stripTable t) [p] = Except.error () by
        simp [patternSelections, hc]] at h
      exact absurd h (by simp)
    | some m =>
      rw [show patternSelections eng (stripTable t) [p] =
          Except.ok [(stripTable t).filter (fun r => m r.text)] by
        simp [patternSelections, hc]] at h
      simp only [List.flatten_cons, List.flatten_nil, List.append_nil] at h
      injection h with h1
      subst h1
      refine (dropDupAux_sublist [] _).trans ?_
      simp only [labelFiltered, List.isEmpty_nil, if_pos, List.nil_append]
      exact (dropDupAux_sublist [] _).trans (List.filter_sublist _)

/-- C3 witness: with labels disabled and the single pattern "a", the amended
order-stability theorem applies to the concrete two-row table. -/
theorem c3_result_order_witness :
    List.Sublist [rowA] (stripTable [rowA, rowB]) :=
  @c3_result_order_amended plainEngine [] ["a"] [rowA, rowB] [rowA]
    (Or.inr ⟨rfl, "a", rfl⟩) (by decide)

/-- C7 counterexample: with an unreadable file and two prediction rows on
page 0, the pre-load loop attempts the read twice, so a distinct
(doc_id, page_id) pair does not have its file read at most once. -/
theorem c7_read_once_counterexample :
    List.count "0" (preload (mkCfg [] []) fsEmpty "a.png" [rowA, rowB]).2.2 = 2 ∧
      ¬ List.count "0" (preload (mkCfg [] []) fsEmpty "a.png" [rowA, rowB]).2.2 ≤ 1 := by
  decide

/-- C7 amended: a page whose derived file loads successfully is read at most
once during pre-loading (the page id is marked processed on success);
only pages whose read fails are re-attempted for later rows. -/
theorem c7_read_once_amended {cfg : Config} {fs : String → Option String}
    {doc : String} {t : List Row} {q : String}
    (hload : fs (pathJoin cfg.resource_dir
      (preloadFilename cfg.img_extension doc q)) ≠ none) :
    List.count q (preload cfg fs doc t).2.2 ≤ 1 :=
  preload_count hload

/-- C7 witness: on a filesystem where every path loads, page 0 referenced by
two rows is read at most once. -/
theorem c7_read_once_witness :
    fsPath (pathJoin (mkCfg [] []).resource_dir
        (preloadFilename (mkCfg [] []).img_extension "a.png" "0")) ≠ none ∧
      List.count "0" (preload (mkCfg [] []) fsPath "a.png" [rowA, rowB]).2.2 ≤ 1 :=
  ⟨by decide,
    @c7_read_once_amended (mkCfg [] []) fsPath "a.png" [rowA, rowB] "0" (by decide)⟩

/-- C4 counterexample: with the malformed pattern "(" configured, module
setup succeeds (the list is bound unvalidated) and the run does not fail
before a document is processed: the first document's page image is read
(the log holds one read) before the regex fault is raised inside
filtering.  This refutes fail-fast-at-setup as stated. -/
theorem c4_failfast_counterexample :
    setupPatterns ["("] = ["("] ∧
      plainEngine.compile "(" = none ∧
      get_entities (mkCfg [] ["("]) plainEngine fsPath genNum encSrc [("a.png", [rowA])] =
        ([("a.png", "0")], Except.error EntErr.regexError) := by
  refine ⟨rfl, rfl, ?_⟩
  rfl

/-- C4 amended: a malformed pattern is not detected at module setup (the
assignment stores the list unvalidated); every call of
get_filtered_predictions then raises, so the run aborts while filtering the
first document, after that document's page images have been pre-loaded:
the fault is per filter call, neither at setup nor per row. -/
theorem c4_failfast_amended {cfg : Config} {eng : RegexEngine}
    {fs : String → Option String} {gen : Nat → String} {enc : Image → String}
    {d : String} {t : List Row} {docs : List (String × List Row)} {p : String}
    (hm : cfg.has_labelling_model = true)
    (hp : p ∈ cfg.text_patterns_to_redact)
    (hc : eng.compile p = none) :
    setupPatterns cfg.text_patterns_to_redact = cfg.text_patterns_to_redact ∧
      (∀ t0 : List Row, (get_filtered_predictions eng cfg.labels_to_redact
          cfg.text_patterns_to_redact t0).2 = Except.error ()) ∧
      get_entities cfg eng fs gen enc ((d, t) :: docs) =
        ((preload cfg fs d (withIds gen t)).2.2.map (fun q => (d, q)),
          Except.error EntErr.regexError) := by
  have hgfp : ∀ t0 : List Row, (get_filtered_predictions eng cfg.labels_to_redact
      cfg.text_patterns_to_redact t0).2 = Except.error () := by
    intro t0
    have hne : ¬cfg.text_patterns_to_redact.isEmpty = true := by
      cases hd : cfg.text_patterns_to_redact with
      | nil => rw [hd] at hp; simp at hp
      | cons a as => simp
    obtain ⟨e, he⟩ := (gfp_error_iff (t := t0)).mpr ⟨hne, p, hp, hc⟩
    cases e
    exact he
  refine ⟨rfl, hgfp, ?_⟩
  rw [get_entities_of_processDocs hm]
  have hpd : processDoc cfg eng fs gen (fun _ => none) d t =
      ((preload cfg fs d (withIds gen t)).2.2.map (fun q => (d, q)),
        Except.error EntErr.regexError) := by
    simp only [processDoc, hgfp (withIds gen t)]
  have hds : processDocs cfg eng fs gen ((d, t) :: docs) [] (fun _ => none) [] =
      ((preload cfg fs d (withIds gen t)).2.2.map (fun q => (d, q)),
        Except.error EntErr.regexError) := by
    simp only [processDocs, hpd, List.nil_append]
  rw [hds]

/-- C4 witness: a concrete application of the amended theorem with the
malformed pattern "(" and a one-row document. -/
theorem c4_failfast_witness :
    ("(" ∈ (mkCfg [] ["("]).text_patterns_to_redact) ∧
      get_entities (mkCfg [] ["("]) plainEngine fsEmpty genNum encSrc
          [("a.png", [rowA])] =
        ((preload (mkCfg [] ["("]) fsEmpty "a.png"
            (withIds genNum [rowA])).2.2.map (fun q => ("a.png", q)),
          Except.error EntErr.regexError) :=
  ⟨by decide,
    (@c4_failfast_amended (mkCfg [] ["("]) plainEngine fsEmpty genNum encSrc
      "a.png" [rowA] [] "(" rfl (by decide) rfl).2.2⟩

/-- C2: whenever get_entities returns a bundle list, each bundle's
redactedData equals the texts of the filtered rows whose page_id equals
that bundle's page, in filter-result order, joined with the separator,
each filtered row contributing exactly once; it is the empty string when
no filtered row targets that page (joinBar of the empty list). -/
theorem c2_redacted_data {cfg : Config} {eng : RegexEngine}
    {fs : String → Option String} {gen : Nat → String} {enc : Image → String}
    {docs : List (String × List Row)} {log : List (String × String)}
    {bundles : List Bundle}
    (hm : cfg.has_labelling_model = true)
    (h : get_entities cfg eng fs gen enc docs = (log, Except.ok bundles)) :
    ∀ b ∈ bundles, b.redactedData =
      joinBar (pageTexts b.pageIndex (allFiltered cfg eng gen docs)) := by
  obtain ⟨c2, tm2, -, hb, htm⟩ := get_entities_ok_spec hm h
  subst hb
  intro b hbmem
  simp only [buildBundles, List.mem_map] at hbmem
  obtain ⟨kv, -, rfl⟩ := hbmem
  show (tm2 (pageIndexOf cfg.img_extension kv.1)).getD "" =
    joinBar (pageTexts (pageIndexOf cfg.img_extension kv.1)
      (allFiltered cfg eng gen docs))
  rw [htm, getD_accText_none]

/-- C2 witness: a concrete single-document run in which the pattern "a"
matches one of the two rows on page 0. -/
theorem c2_redacted_data_witness :
    get_entities (mkCfg [] ["a"]) plainEngine fsPath genNum encSrc
        [("a.png", [rowA, rowB])] =
      ([("a.png", "0")], Except.ok [bundle0A]) ∧
    bundle0A.redactedData = joinBar (pageTexts bundle0A.pageIndex
      (allFiltered (mkCfg [] ["a"]) plainEngine genNum [("a.png", [rowA, rowB])])) :=
  ⟨by decide, @c2_redacted_data (mkCfg [] ["a"]) plainEngine fsPath genNum encSrc
    [("a.png", [rowA, rowB])] [("a.png", "0")] [bundle0A] rfl (by decide)
    bundle0A (by decide)⟩

/-- C5: when a row of the filtered frame references a page whose bitmap is
not in the cache, processing the document raises the consistency fault
(KeyError, modelled as missingPage), after the pre-load reads, and no
bundle list is returned for the document. -/
theorem c5_missing_page_fault {cfg : Config} {eng : RegexEngine}
    {fs : String → Option String} {gen : Nat → String} {enc : Image → String}
    {d : String} {t : List Row} {filt : List Row} {r : Row}
    (hm : cfg.has_labelling_model = true)
    (hf : (get_filtered_predictions eng cfg.labels_to_redact
        cfg.text_patterns_to_redact (withIds gen t)).2 = Except.ok filt)
    (hr : r ∈ filt)
    (hmiss : assocLookup (preload cfg fs d (withIds gen t)).1
        (redactFilename cfg.img_extension d r.page_id) = none) :
    get_entities cfg eng fs gen enc [(d, t)] =
      ((preload cfg fs d (withIds gen t)).2.2.map (fun q => (d, q)),
        Except.error EntErr.missingPage) := by
  rw [get_entities_of_processDocs hm]
  have hrl : redactLoop cfg d filt (preload cfg fs d (withIds gen t)).1
      (fun _ => none) = Except.error EntErr.missingPage :=
    redactLoop_error_of_missing ⟨r, hr, hmiss⟩
  have hpd : processDoc cfg eng fs gen (fun _ => none) d t =
      ((preload cfg fs d (withIds gen t)).2.2.map (fun q => (d, q)),
        Except.error EntErr.missingPage) := by
    simp only [processDoc, hf, hrl]
  have hds : processDocs cfg eng fs gen [(d, t)] [] (fun _ => none) [] =
      ((preload cfg fs d (withIds gen t)).2.2.map (fun q => (d, q)),
        Except.error EntErr.missingPage) := by
    simp only [processDocs, hpd, List.nil_append]
  rw [hds]

/-- C5 witness: on a filesystem where no image loads, the matched row on
page 0 finds no cached bitmap and the document's run ends in the fault. -/
theorem c5_missing_page_witness :
    get_entities (mkCfg [] ["a"]) plainEngine fsEmpty genNum encSrc
        [("a.png", [rowA])] =
      ((preload (mkCfg [] ["a"]) fsEmpty "a.png" (withIds genNum [rowA])).2.2.map
          (fun q => ("a.png", q)),
        Except.error EntErr.missingPage) :=
  @c5_missing_page_fault (mkCfg [] ["a"]) plainEngine fsEmpty genNum encSrc
    "a.png" [rowA] [rowA0] rowA0
    rfl (by decide) (by decide) (by decide)

/-- C1 counterexample: with two document keys, page 0 of a.png is referenced
by a row and its file loads, yet the emitted bundle list (built from the
cache as left by the last document) holds no bundle for it: the stated
iff between bundles, cache and referenced-and-loaded pages fails for the
first document. -/
theorem c1_page_presence_counterexample :
    get_entities (mkCfg [] []) plainEngine fsPath genNum encSrc
        [("a.png", [rowA]), ("b.png", [rowC])] =
      ([("a.png", "0"), ("b.png", "1")], Except.ok [bundle1B]) ∧
      rowA.page_id = "0" ∧
      fsPath (pathJoin "res" (preloadFilename ".png" "a.png" "0")) ≠ none ∧
      bundle1B.pageIndex ≠ pageIndexOf ".png" (preloadFilename ".png" "a.png" "0") := by
  decide

/-- C1 amended: for a call carrying a single document (equivalently, for the
last document iterated), a page appears in the emitted bundle list iff it
appears in the cache (the bundles are exactly the cache entries, in
order), and a filename appears in the cache iff some prediction row of the
full table derives it and the corresponding source file loads. -/
theorem c1_page_presence_amended {cfg : Config} {eng : RegexEngine}
    {fs : String → Option String} {gen : Nat → String} {enc : Image → String}
    {d : String} {t : List Row} {log : List (String × String)}
    {bundles : List Bundle}
    (hm : cfg.has_labelling_model = true)
    (h : get_entities cfg eng fs gen enc [(d, t)] = (log, Except.ok bundles)) :
    bundles.map Bundle.pageIndex =
      ((preload cfg fs d (withIds gen t)).1.map Prod.fst).map
        (pageIndexOf cfg.img_extension) ∧
    ∀ fn, fn ∈ (preload cfg fs d (withIds gen t)).1.map Prod.fst ↔
      ∃ r ∈ withIds gen t, preloadFilename cfg.img_extension d r.page_id = fn ∧
        fs (pathJoin cfg.resource_dir fn) ≠ none := by
  refine ⟨?_, fun fn => preload_mem⟩
  obtain ⟨c2, tm2, hpd2, hb, -⟩ := get_entities_ok_spec hm h
  have hpd := processDocs_singleton_ok (Prod.ext rfl hpd2)
  obtain ⟨-, hrl⟩ := processDoc_ok hpd
  have hkeys := redactLoop_ok_keys hrl
  subst hb
  rw [buildBundles_pageIndexes, hkeys]

/-- C1 witness: concrete single-document run with two pages, one of which
fails to load, showing the amended cache/bundle correspondence. -/
theorem c1_page_presence_witness :
    get_entities (mkCfg [] []) plainEngine fsPath genNum encSrc
        [("a.png", [rowA, rowC])] =
      ([("a.png", "0"), ("a.png", "1")], Except.ok [bundle0E, bundle1E]) ∧
    ([bundle0E, bundle1E].map Bundle.pageIndex =
      ((preload (mkCfg [] []) fsPath "a.png"
          (withIds genNum [rowA, rowC])).1.map Prod.fst).map (pageIndexOf ".png")) :=
  ⟨by decide,
    (@c1_page_presence_amended (mkCfg [] []) plainEngine fsPath genNum encSrc
      "a.png" [rowA, rowC] [("a.png", "0"), ("a.png", "1")] [bundle0E, bundle1E]
      rfl (by decide)).1⟩

/-- C9: with several document keys, the bundle list only reflects the last
document's cache (the image dict is re-initialized per document), while
each bundle's redacted text is drawn from the filtered rows of all
documents (the text dict is never reset). -/
theorem c9_last_document_only {cfg : Config} {eng : RegexEngine}
    {fs : String → Option String} {gen : Nat → String} {enc : Image → String}
    {ds : List (String × List Row)} {d : String} {t : List Row}
    {log : List (String × String)} {bundles : List Bundle}
    (hm : cfg.has_labelling_model = true)
    (h : get_entities cfg eng fs gen enc (ds ++ [(d, t)]) = (log, Except.ok bundles)) :
    bundles.map Bundle.pageIndex =
      ((preload cfg fs d (withIds gen t)).1.map Prod.fst).map
        (pageIndexOf cfg.img_extension) ∧
    ∀ b ∈ bundles, b.redactedData =
      joinBar (pageTexts b.pageIndex (allFiltered cfg eng gen (ds ++ [(d, t)]))) := by
  obtain ⟨c2, tm2, hpd2, hb, htm⟩ := get_entities_ok_spec hm h
  subst hb
  constructor
  · rcases processDocs_ok_last (Prod.ext rfl hpd2) with
      ⟨hnil, -, -⟩ | ⟨ds', d', t', tmPrev, hds, hpd⟩
    · exact absurd hnil (by simp)
    · obtain ⟨h1, h2⟩ := append_singleton_inj hds.symm
      obtain ⟨h3, h4⟩ := Prod.mk.injEq .. |>.mp h2
      subst h1
      subst h3
      subst h4
      obtain ⟨-, hrl⟩ := processDoc_ok hpd
      have hkeys := redactLoop_ok_keys hrl
      rw [buildBundles_pageIndexes, hkeys]
  · intro b hbmem
    simp only [buildBundles, List.mem_map] at hbmem
    obtain ⟨kv, -, rfl⟩ := hbmem
    show (tm2 (pageIndexOf cfg.img_extension kv.1)).getD "" =
      joinBar (pageTexts (pageIndexOf cfg.img_extension kv.1)
        (allFiltered cfg eng gen (ds ++ [(d, t)])))
    rw [htm, getD_accText_none]

/-- C9 witness: the two-document run in which only the second document's
page appears in the output. -/
theorem c9_last_document_only_witness :
    get_entities (mkCfg [] []) plainEngine fsPath genNum encSrc
        ([("a.png", [rowA])] ++ [("b.png", [rowC])]) =
      ([("a.png", "0"), ("b.png", "1")], Except.ok [bundle1B]) ∧
    ([bundle1B].map Bundle.pageIndex =
      ((preload (mkCfg [] []) fsPath "b.png"
          (withIds genNum [rowC])).1.map Prod.fst).map (pageIndexOf ".png")) :=
  ⟨by decide,
    (@c9_last_document_only (mkCfg [] []) plainEngine fsPath genNum encSrc
      [("a.png", [rowA])] "b.png" [rowC] [("a.png", "0"), ("b.png", "1")] [bundle1B]
      rfl (by decide)).1⟩

end Claims

end PostProc
